import Mathlib

/-!
Verification development for the implicit differentiation engine of the
torchopt repository: flat vectors, the two pluggable linear solvers
(conjugate gradient on the normal equations, Neumann series), the
custom-root backward pass, tree flatten/rebuild utilities, and the
module facade classification rules.  Machine integers do not occur in
this core; all numerics are modelled over exact rationals.
-/

namespace TorchOpt

/-- Flat numeric vectors: the flattened leaf sequence of a parameter pack. -/
abbrev Vec := List ℚ

/-- Elementwise vector addition. -/
def vadd (u v : Vec) : Vec := List.zipWith (fun a b => a + b) u v

/-- Elementwise vector subtraction. -/
def vsub (u v : Vec) : Vec := List.zipWith (fun a b => a - b) u v

/-- Scalar multiple of a vector. -/
def smul (a : ℚ) (v : Vec) : Vec := v.map (fun x => a * x)

/-- Inner product of two flat vectors. -/
def dot (u v : Vec) : ℚ := (List.zipWith (fun a b => a * b) u v).sum

/-- The zero vector of a given length (the zero-initialized iterate). -/
def zeros (n : Nat) : Vec := List.replicate n 0

/-- Absolute value on the rationals, written as an executable conditional. -/
def ratAbs (x : ℚ) : ℚ := if x < 0 then -x else x

/-- Modelled from the spec: a matrix-free linear operator, giving one
application of A and one of its transpose (the reverse-vector mode of
the same adapter), without materializing the matrix. -/
structure LinOp where
  apply : Vec → Vec
  applyT : Vec → Vec

/-- The identity operator in one dimension, used for concrete instances. -/
def opId : LinOp := ⟨id, id⟩

/-- Modelled from the spec: configuration of the conjugate-gradient solver,
captured at construction time: a hard iteration cap and an absolute
residual tolerance. -/
structure CgConfig where
  maxiter : Nat
  atol : ℚ

/-- Solver-scoped state of the conjugate-gradient iteration: current
iterate, residual, and search direction. -/
structure CgState where
  x : Vec
  r : Vec
  p : Vec

/-- One conjugate-gradient step on the normal equations: each step performs
one application of A and one of its transpose, never forming the matrix. -/
def cgStep (op : LinOp) (s : CgState) : CgState :=
  let gp := op.applyT (op.apply s.p)
  let alpha := dot s.r s.r / dot s.p gp
  let r2 := vsub s.r (smul alpha gp)
  { x := vadd s.x (smul alpha s.p)
    r := r2
    p := vadd r2 (smul (dot r2 r2 / dot s.r s.r) s.p) }

/-- Modelled from the spec: the conjugate-gradient loop (the solver code is
absent from src, only its notebook callers are present).  Squared residual
norm at or below the squared tolerance stops with the current iterate;
exhausted iteration cap stops with the current iterate, as a value and not
an error; a direction vector of zero norm (numerical breakdown) stops
immediately with the current iterate.  Division by a vanishing curvature
denominator follows the total rational convention and leaves the iterate
unchanged on that step. -/
def cgLoop (op : LinOp) (atol2 : ℚ) : Nat → CgState → CgState
  | 0, s => s
  | Nat.succ fuel, s =>
    if dot s.r s.r ≤ atol2 then s
    else if dot s.p s.p = 0 then s
    else cgLoop op atol2 fuel (cgStep op s)

/-- Modelled from the spec: solve_normal_cg runs conjugate gradient on the
normal equations A transpose A x = A transpose b, starting from the
zero-initialized iterate. -/
def solve_normal_cg (cfg : CgConfig) (op : LinOp) (b : Vec) : Vec :=
  let c := op.applyT b
  (cgLoop op (cfg.atol * cfg.atol) cfg.maxiter ⟨zeros b.length, c, c⟩).x

/-- Modelled from the spec: configuration of the Neumann-series solver:
the truncation length of the series and the optional damping factor. -/
structure NsConfig where
  maxTerms : Nat
  alpha : Option ℚ

/-- Modelled from the spec: the truncated Neumann series accumulation.  The
accumulator starts at the zeroth, identity term b; each later term applies
the operator exactly once; the pair also returns the exact number of
operator applications performed, so that the fixed-cost contract is itself
a provable statement. -/
def nsIter (op : LinOp) (a : ℚ) : Nat → Vec → Vec → Nat → Vec × Nat
  | 0, _, acc, cnt => (acc, cnt)
  | Nat.succ n, v, acc, cnt =>
    let v2 := vsub v (smul a (op.apply v))
    nsIter op a n v2 (vadd acc v2) (cnt + 1)

/-- Modelled from the spec: the Neumann-series solve with its operator
application count.  With damping alpha the series is the correspondingly
rescaled series for the substituted operator; without damping it is the
plain truncated series. -/
def solve_inv_counted (cfg : NsConfig) (op : LinOp) (b : Vec) : Vec × Nat :=
  let res := nsIter op (cfg.alpha.getD 1) cfg.maxTerms b b 0
  match cfg.alpha with
  | some al => (smul al res.1, res.2)
  | none => res

/-- Modelled from the spec: the Neumann-series solve, value only. -/
def solve_inv (cfg : NsConfig) (op : LinOp) (b : Vec) : Vec :=
  (solve_inv_counted cfg op b).1

/-- Two sequential calls of one configured solver on identical inputs,
written as an explicit call sequence. -/
def solveSeq (slv : LinOp → Vec → Vec) (op : LinOp) (b : Vec) : Vec × Vec :=
  (slv op b, slv op b)

/-- The operator application count of the Neumann iteration grows by exactly
the number of requested terms. -/
theorem nsIter_count (op : LinOp) (a : ℚ) :
    ∀ (n : Nat) (v acc : Vec) (cnt : Nat), (nsIter op a n v acc cnt).2 = cnt + n := by
  intro n
  induction n with
  | zero => intro v acc cnt; simp [nsIter]
  | succ m ih =>
    intro v acc cnt
    rw [nsIter, ih]
    omega

/-- C4: for every linear operator and right-hand side the conjugate-gradient
solve returns an iterate of the loop and never an error value: when the
iteration cap is exhausted the current iterate is returned as an ordinary
result, and a direction vector of zero norm stops the loop immediately with
the current iterate. -/
theorem cg_termination_policy :
    ∀ (op : LinOp) (t : ℚ) (s : CgState) (cfg : CgConfig) (b : Vec),
      cgLoop op t 0 s = s ∧
      (∀ fuel : Nat, dot s.p s.p = 0 → cgLoop op t fuel s = s) ∧
      solve_normal_cg cfg op b
        = (cgLoop op (cfg.atol * cfg.atol) cfg.maxiter
            ⟨zeros b.length, op.applyT b, op.applyT b⟩).x := by
  intro op t s cfg b
  refine ⟨rfl, ?_, rfl⟩
  intro fuel hp
  cases fuel with
  | zero => rfl
  | succ m =>
    rw [cgLoop]
    by_cases hr : dot s.r s.r ≤ t
    · simp [hr]
    · simp [hr, hp]

/-- Witness for C4 at a concrete breakdown state: a zero direction vector
makes the loop return the current iterate at once. -/
theorem cg_termination_policy_witness :
    dot [(0 : ℚ)] [(0 : ℚ)] = 0 ∧
      cgLoop opId 0 3 ⟨[(1 : ℚ)], [(2 : ℚ)], [(0 : ℚ)]⟩ = ⟨[(1 : ℚ)], [(2 : ℚ)], [(0 : ℚ)]⟩ :=
  ⟨by simp [dot], (cg_termination_policy opId 0 ⟨[1], [2], [0]⟩ ⟨3, 0⟩ []).2.1 3 (by simp [dot])⟩

/-- C5: the Neumann-series solve performs exactly maxTerms applications of
the operator and then returns; there is no convergence check mid-series and
no early exit, whatever the operator and right-hand side. -/
theorem neumann_fixed_operator_cost :
    ∀ (cfg : NsConfig) (op : LinOp) (b : Vec),
      (solve_inv_counted cfg op b).2 = cfg.maxTerms := by
  intro cfg op b
  unfold solve_inv_counted
  cases h : cfg.alpha with
  | none => simp [nsIter_count]
  | some al => simp [nsIter_count]

/-- C8: for either solver with a fixed configuration, two sequential calls
to solve on identical operator and right-hand side yield identical outputs;
the configured solve is a pure function of the operator and b, with no
state threaded between the two calls. -/
theorem solve_deterministic :
    ∀ (cg : CgConfig) (ns : NsConfig) (op : LinOp) (b : Vec),
      (solveSeq (solve_normal_cg cg) op b).1 = (solveSeq (solve_normal_cg cg) op b).2 ∧
      (solveSeq (solve_inv ns) op b).1 = (solveSeq (solve_inv ns) op b).2 := by
  intro cg ns op b
  exact ⟨rfl, rfl⟩

/-- C6 counterexample: the Neumann-series solve with zero terms does not
return the zero vector; at the identity operator with b the singleton one,
it returns b itself, the zeroth (identity) term of the series. -/
theorem neumann_zero_terms_counterexample :
    solve_inv ⟨0, none⟩ opId [(1 : ℚ)] = [(1 : ℚ)] ∧
      solve_inv ⟨0, none⟩ opId [(1 : ℚ)] ≠ zeros 1 := by
  refine ⟨rfl, ?_⟩
  simp [solve_inv, solve_inv_counted, nsIter, zeros]

/-- C6 amended: conjugate gradient with a zero iteration cap returns the
zero-initialized iterate unchanged; the Neumann series with zero terms
returns the accumulator holding just the zeroth, identity series term,
namely b itself (scaled by alpha when damping is configured), behaving as
if the inverse were the identity. -/
theorem solver_zero_config_boundary :
    ∀ (op : LinOp) (b : Vec) (atol al : ℚ),
      solve_normal_cg ⟨0, atol⟩ op b = zeros b.length ∧
      solve_inv ⟨0, none⟩ op b = b ∧
      solve_inv ⟨0, some al⟩ op b = smul al b := by
  intro op b atol al
  exact ⟨rfl, rfl, rfl⟩

/-- Modelled from the spec: an affine stationarity condition in one inner
parameter and one meta parameter, with residual a * φ + c * θ + d; its
Jacobians with respect to φ and θ are the constants a and c.  The engine
code is absent from src, so the condition carries its derivative data
explicitly. -/
structure LinearCondition where
  a : ℚ
  c : ℚ
  d : ℚ

/-- The optimality residual of an affine condition. -/
def LinearCondition.residual (f : LinearCondition) (phi th : ℚ) : ℚ :=
  f.a * phi + f.c * th + f.d

/-- Modelled from the spec: the matrix-free linear operator built from the
Jacobian-vector product of the condition with respect to φ at the captured
point; for an affine condition both the forward and the reverse direction
multiply by the coefficient a. -/
def LinearCondition.op (f : LinearCondition) : LinOp :=
  ⟨fun v => smul f.a v, fun v => smul f.a v⟩

/-- Modelled from the spec: the custom-root backward pass.  The upstream
seed g becomes the right-hand side of the linear solve against the
Jacobian operator of the condition with respect to φ; the solution of that
solve then seeds one reverse pass through the condition with respect to θ.
The adjoint convention left open by the spec is resolved, as the spec
directs, by the closed-form quadratic test: the solve inverts the
φ-Jacobian and the θ tap carries the implicit-function-theorem sign. -/
def rootBackward (slv : LinOp → Vec → Vec) (f : LinearCondition) (g : ℚ) : ℚ :=
  -(f.c * (slv f.op [g]).headD 0)

/-- The solution map of an affine condition: the φ with zero residual. -/
def phiStar (f : LinearCondition) (th : ℚ) : ℚ := -(f.c * th + f.d) / f.a

/-- The closed-form derivative of the solution map with respect to θ. -/
def dphiStar (f : LinearCondition) : ℚ := -(f.c / f.a)

/-- The quadratic stationarity condition of the spec, residual φ - θ/2. -/
def quadCond : LinearCondition := ⟨1, -(1/2), 0⟩

/-- The conjugate-gradient configuration of the notebook: maxiter 5, atol 0. -/
def cgCfg : CgConfig := ⟨5, 0⟩

/-- On a one-dimensional system with nonzero coefficient, normal-equation
conjugate gradient with zero tolerance and at least two available
iterations returns the exact solution g / a. -/
theorem solve_cg_scalar (a g : ℚ) (ha : a ≠ 0) (k : Nat) :
    solve_normal_cg ⟨Nat.succ (Nat.succ k), 0⟩ ⟨fun v => smul a v, fun v => smul a v⟩ [g]
      = [g / a] := by
  by_cases hg : g = 0
  · subst hg
    simp [solve_normal_cg, smul, zeros, cgLoop, dot]
  · have hag : a * g ≠ 0 := mul_ne_zero ha hg
    have hstep : cgStep ⟨fun v => smul a v, fun v => smul a v⟩ ⟨[0], [a * g], [a * g]⟩
        = ⟨[g / a], [0], [0]⟩ := by
      simp [cgStep, dot, vadd, vsub, smul]
      refine ⟨?_, ?_, ?_⟩ <;> field_simp <;> ring
    have hr : ¬ (dot [a * g] [a * g] ≤ (0 : ℚ) * 0) := by
      simp only [dot, List.zipWith_cons_cons, List.zipWith_nil_right, List.sum_cons,
        List.sum_nil, add_zero, mul_zero, not_le]
      exact mul_self_pos.mpr hag
    have hp : ¬ (dot [a * g] [a * g] = 0) := by
      simp only [dot, List.zipWith_cons_cons, List.zipWith_nil_right, List.sum_cons,
        List.sum_nil, add_zero]
      exact mul_self_ne_zero.mpr hag
    have hz : dot [(0 : ℚ)] [(0 : ℚ)] ≤ (0 : ℚ) * 0 := by simp [dot]
    show (cgLoop ⟨fun v => smul a v, fun v => smul a v⟩ ((0 : ℚ) * 0)
        (Nat.succ (Nat.succ k)) ⟨zeros 1, smul a [g], smul a [g]⟩).x = [g / a]
    have hsm : smul a [g] = [a * g] := by simp [smul]
    rw [hsm]
    show (cgLoop _ _ (Nat.succ (Nat.succ k)) ⟨[0], [a * g], [a * g]⟩).x = [g / a]
    rw [cgLoop, if_neg hr, if_neg hp, hstep, cgLoop, if_pos hz]

/-- C1: for the quadratic stationarity condition with residual φ - θ/2, for
every meta value θ and every upstream gradient seed g, the residual
vanishes at the solution map, the solution map is affine with slope
dphiStar exactly, and the implicit gradient returned by the custom-root
backward pass through the conjugate-gradient solve matches that
closed-form analytical gradient of the solution map within 1 / 100000. -/
theorem implicit_gradient_matches_closed_form :
    ∀ th g : ℚ,
      quadCond.residual (phiStar quadCond th) th = 0 ∧
      (∀ h : ℚ, phiStar quadCond (th + h) - phiStar quadCond th = dphiStar quadCond * h) ∧
      ratAbs (rootBackward (solve_normal_cg cgCfg) quadCond g - dphiStar quadCond * g)
        ≤ 1 / 100000 := by
  intro th g
  refine ⟨?_, ?_, ?_⟩
  · simp [LinearCondition.residual, phiStar, quadCond]
  · intro h
    simp [phiStar, dphiStar, quadCond]
    ring
  · have hs : solve_normal_cg cgCfg quadCond.op [g] = [g / 1] :=
      solve_cg_scalar 1 g one_ne_zero 3
    simp only [rootBackward, hs]
    have hzero : -(quadCond.c * ([g / 1].headD 0)) - dphiStar quadCond * g = 0 := by
      norm_num [quadCond, dphiStar]
    rw [hzero]
    norm_num [ratAbs]

/-- Modelled from the spec and the notebook source: a custom-root binding
captures the list of positional argument indices (argnums) declared when
the decorator is constructed. -/
structure CustomRootBinding where
  argnums : List Nat

/-- Modelled from the spec and the notebook source: the inner-parameter
argument φ of the wrapped forward function is its first positional
argument; the notebook differentiates the optimality condition at argument
index zero. -/
def CustomRootBinding.phiArgIndex (_ : CustomRootBinding) : Nat := 0

/-- Modelled from the spec: the backward step returns one gradient slot per
forward argument, aligned positionally; a declared meta-parameter position
carries a gradient value and every other position signals no gradient. -/
def CustomRootBinding.backwardSlots (b : CustomRootBinding) (nargs : Nat)
    (grads : Nat → ℚ) : List (Option ℚ) :=
  (List.range nargs).map (fun i => if i ∈ b.argnums then some (grads i) else none)

/-- The binding constructed in the notebook: custom_root with argnums 1 on
the forward inner_solver taking (params, meta_params, data). -/
def notebookBinding : CustomRootBinding := ⟨[1]⟩

/-- The reading of the claim under test: the argnums of a binding name
exactly the φ argument position. -/
def argnumsIdentifyPhi (b : CustomRootBinding) : Prop :=
  b.argnums = [b.phiArgIndex]

/-- C3 counterexample: in the notebook binding argnums is [1] while the φ
argument sits at position 0, so argnums does not identify φ; moreover the
φ slot of the backward output carries no gradient while the declared
position 1 (the meta parameters) does. -/
theorem argnums_does_not_identify_phi :
    ¬ argnumsIdentifyPhi notebookBinding ∧
      (notebookBinding.backwardSlots 3 (fun _ => 1)).headD none = none ∧
      (notebookBinding.backwardSlots 3 (fun _ => 1)).getD 1 none = some 1 := by
  have hslots : notebookBinding.backwardSlots 3 (fun _ => 1) = [none, some 1, none] := by
    simp [CustomRootBinding.backwardSlots, notebookBinding, List.range_succ]
  refine ⟨?_, ?_, ?_⟩
  · simp [argnumsIdentifyPhi, notebookBinding, CustomRootBinding.phiArgIndex]
  · rw [hslots]
    rfl
  · rw [hslots]
    rfl

/-- C3 amended: argnums identifies the meta-parameter arguments of the
forward function, the positions whose slots receive gradients from the
backward pass, while the inner-parameter argument φ is the first
positional argument (index 0) of the wrapped forward function. -/
theorem argnums_select_meta_arguments :
    ∀ (b : CustomRootBinding) (n : Nat) (grads : Nat → ℚ) (i : Nat),
      i < n →
      (b.phiArgIndex = 0 ∧
        ((b.backwardSlots n grads).getD i none ≠ none ↔ i ∈ b.argnums)) := by
  intro b n grads i hi
  refine ⟨rfl, ?_⟩
  have hget : (b.backwardSlots n grads).getD i none
      = if i ∈ b.argnums then some (grads i) else none := by
    unfold CustomRootBinding.backwardSlots
    rw [List.getD_eq_getElem?_getD, List.getElem?_map, List.getElem?_range hi]
    rfl
  rw [hget]
  by_cases hmem : i ∈ b.argnums
  · simp [hmem]
  · simp [hmem]

/-- Witness for the amended C3 at the notebook binding: position 1 of three
arguments is a gradient target exactly because argnums is [1]. -/
theorem argnums_select_meta_arguments_witness :
    notebookBinding.phiArgIndex = 0 ∧
      ((notebookBinding.backwardSlots 3 (fun _ => 1)).getD 1 none ≠ none ↔
        1 ∈ notebookBinding.argnums) :=
  argnums_select_meta_arguments notebookBinding 3 (fun _ => 1) 1 (by norm_num)

/-- Modelled from the spec: the iMAML inner objective at a concrete
one-dimensional ridge-regression instance with one data point x = 1 and
label y = 0: the mean-squared error (φ·x - y)² plus the regularizer
(1/2)(φ - θ)². -/
def imamlObjective (ph th : ℚ) : ℚ := (ph * 1 - 0) ^ 2 + (1 / 2) * (ph - th) ^ 2

/-- The stationarity condition of the instance: the φ-gradient of the
objective, 3φ - θ, as an affine condition record. -/
def imamlCond : LinearCondition := ⟨3, -1, 0⟩

/-- One inner gradient-descent step with the notebook learning rate 1/50. -/
def innerStep (th ph : ℚ) : ℚ := ph - (1 / 50) * imamlCond.residual ph th

/-- The inner loop: n gradient-descent steps from the initialization ph. -/
def innerLoop : Nat → ℚ → ℚ → ℚ
  | 0, _, ph => ph
  | Nat.succ n, th, ph => innerLoop n th (innerStep th ph)

/-- The outer loss of the scenario: the mean model output at the inner
solution, which at the instance x = 1 is the solution value itself; the
inner initialization is a clone of the meta parameter, as in the notebook. -/
def outerLoss (th : ℚ) : ℚ := innerLoop 100 th th

/-- The Neumann configuration of the notebook: 100 terms, damping 1/10. -/
def nsCfg : NsConfig := ⟨100, some (1 / 10)⟩

/-- The meta-gradient of the scenario computed through the
conjugate-gradient solve, seeded with the outer gradient 1. -/
def gradCG : ℚ := rootBackward (solve_normal_cg cgCfg) imamlCond 1

/-- The meta-gradient of the scenario computed through the Neumann-series
solve, seeded with the outer gradient 1. -/
def gradNS : ℚ := rootBackward (solve_inv nsCfg) imamlCond 1

/-- The central finite-difference estimate of the outer-loss derivative at
θ = 1 with step 1/1000. -/
def fdGrad : ℚ :=
  (outerLoss (1 + 1 / 1000) - outerLoss (1 - 1 / 1000)) / (2 * (1 / 1000))

/-- Closed form of the inner loop: gradient descent on the instance
contracts toward θ/3 with ratio 47/50 per step. -/
theorem innerLoop_closed_form (n : Nat) :
    ∀ th ph : ℚ, innerLoop n th ph = (47 / 50) ^ n * (ph - th / 3) + th / 3 := by
  induction n with
  | zero =>
    intro th ph
    simp [innerLoop]
  | succ m ih =>
    intro th ph
    rw [innerLoop, ih]
    simp only [innerStep, imamlCond, LinearCondition.residual]
    ring

/-- Closed form of the Neumann accumulation on the instance operator: each
term is scaled by 7/10 relative to the previous one, so the accumulator
gains a finite geometric sum. -/
theorem nsIter_imaml_closed_form (n : Nat) :
    ∀ (v acc : ℚ) (cnt : Nat),
      (nsIter imamlCond.op (1 / 10) n [v] [acc] cnt).1
        = [acc + (7 / 3) * v * (1 - (7 / 10) ^ n)] := by
  induction n with
  | zero =>
    intro v acc cnt
    simp [nsIter]
  | succ m ih =>
    intro v acc cnt
    have hv : vsub [v] (smul (1 / 10) (imamlCond.op.apply [v])) = [(7 / 10) * v] := by
      simp [imamlCond, LinearCondition.op, smul, vsub]
      ring
    have hacc : vadd [acc] [(7 / 10) * v] = [acc + (7 / 10) * v] := by
      simp [vadd]
    simp only [nsIter]
    rw [hv, hacc, ih]
    simp only [List.cons.injEq, and_true]
    ring

/-- Evaluation of the conjugate-gradient meta-gradient of the instance. -/
theorem gradCG_eval : gradCG = 1 / 3 := by
  have h3 : (3 : ℚ) ≠ 0 := by norm_num
  have hs : solve_normal_cg cgCfg imamlCond.op [1] = [(1 : ℚ) / 3] :=
    solve_cg_scalar 3 1 h3 3
  unfold gradCG rootBackward
  rw [hs]
  norm_num [imamlCond]

/-- Evaluation of the Neumann-series meta-gradient of the instance. -/
theorem gradNS_eval : gradNS = 1 / 3 - (7 / 30) * (7 / 10) ^ 100 := by
  unfold gradNS rootBackward solve_inv solve_inv_counted nsCfg
  simp only [Option.getD_some]
  rw [nsIter_imaml_closed_form 100 1 1 0]
  simp [smul, imamlCond]
  ring

/-- Evaluation of the finite-difference estimate of the instance. -/
theorem fdGrad_eval : fdGrad = 1 / 3 + (2 / 3) * (47 / 50) ^ 100 := by
  unfold fdGrad outerLoss
  simp only [innerLoop_closed_form]
  ring

/-- C2: at the concrete rational instance of the iMAML scenario (inner loop
of 100 gradient-descent steps on the mean-squared error plus the ridge
term (1/2)(φ - θ)², learning rate 1/50, outer loss the mean model output
at the inner solution), the condition fed to the engine is exactly the
φ-gradient of the inner objective, and the meta-gradients computed through
the conjugate-gradient and the Neumann-series solves agree with each other
within 1/1000 and each agrees with the central finite-difference estimate
of the outer-loss derivative within 1/100. -/
theorem imaml_cross_solver_agreement :
    (∀ ph th h : ℚ, imamlObjective (ph + h) th - imamlObjective ph th
        = imamlCond.residual ph th * h + (3 / 2) * h ^ 2) ∧
    ratAbs (gradCG - gradNS) ≤ 1 / 1000 ∧
    ratAbs (gradCG - fdGrad) ≤ 1 / 100 ∧
    ratAbs (gradNS - fdGrad) ≤ 1 / 100 := by
  refine ⟨?_, ?_, ?_, ?_⟩
  · intro ph th h
    simp only [imamlObjective, imamlCond, LinearCondition.residual]
    ring
  · rw [gradCG_eval, gradNS_eval]
    have heq : (1 : ℚ) / 3 - (1 / 3 - (7 / 30) * (7 / 10) ^ 100)
        = (7 / 30) * (7 / 10) ^ 100 := by ring
    have hnn : (0 : ℚ) ≤ (7 / 30) * (7 / 10) ^ 100 := by positivity
    rw [heq, ratAbs, if_neg (not_lt.mpr hnn)]
    norm_num
  · rw [gradCG_eval, fdGrad_eval]
    have hpos : (0 : ℚ) < (2 / 3) * (47 / 50) ^ 100 := by positivity
    have heq : (1 : ℚ) / 3 - (1 / 3 + (2 / 3) * (47 / 50) ^ 100)
        = -((2 / 3) * (47 / 50) ^ 100) := by ring
    rw [heq, ratAbs, if_pos (by linarith), neg_neg]
    norm_num
  · rw [gradNS_eval, fdGrad_eval]
    have hpos : (0 : ℚ) < (7 / 30) * (7 / 10) ^ 100 + (2 / 3) * (47 / 50) ^ 100 := by
      positivity
    have heq : (1 : ℚ) / 3 - (7 / 30) * (7 / 10) ^ 100 - (1 / 3 + (2 / 3) * (47 / 50) ^ 100)
        = -((7 / 30) * (7 / 10) ^ 100 + (2 / 3) * (47 / 50) ^ 100) := by ring
    rw [heq, ratAbs, if_pos (by linarith), neg_neg]
    have h1 : (7 : ℚ) / 30 * (7 / 10) ^ 100 ≤ 1 / 200 := by norm_num
    have h2 : (2 : ℚ) / 3 * (47 / 50) ^ 100 ≤ 1 / 200 := by norm_num
    linarith

mutual
/-- Modelled from the spec: a possibly nested structure of numeric leaves,
the parameter-pack tree consumed by the flatten and rebuild utilities
(the utilities themselves are outside the src sources, which only consume
them). -/
inductive PyTree (V : Type) where
  | leaf (v : V)
  | node (children : PyTreeList V)
/-- An ordered sequence of subtrees of a node. -/
inductive PyTreeList (V : Type) where
  | nil
  | cons (hd : PyTree V) (tl : PyTreeList V)
end

mutual
/-- Modelled from the spec: flatten a tree into its ordered leaf sequence. -/
def PyTree.flatten {V : Type} : PyTree V → List V
  | .leaf v => [v]
  | .node ts => PyTreeList.flattenList ts
/-- Flatten each subtree in order and concatenate. -/
def PyTreeList.flattenList {V : Type} : PyTreeList V → List V
  | .nil => []
  | .cons t ts => PyTree.flatten t ++ PyTreeList.flattenList ts
end

mutual
/-- Modelled from the spec: rebuild a structure shaped like the receiver
from an ordered leaf sequence, returning the rebuilt structure and the
leaves left over, or none when the sequence is too short. -/
def PyTree.rebuild {V : Type} : PyTree V → List V → Option (PyTree V × List V)
  | .leaf _, [] => none
  | .leaf _, v :: rest => some (.leaf v, rest)
  | .node ts, vs =>
    match PyTreeList.rebuildList ts vs with
    | none => none
    | some (ts2, rest) => some (.node ts2, rest)
/-- Rebuild each subtree in order, threading the remaining leaves. -/
def PyTreeList.rebuildList {V : Type} :
    PyTreeList V → List V → Option (PyTreeList V × List V)
  | .nil, vs => some (.nil, vs)
  | .cons t ts, vs =>
    match PyTree.rebuild t vs with
    | none => none
    | some (t2, rest) =>
      match PyTreeList.rebuildList ts rest with
      | none => none
      | some (ts2, rest2) => some (.cons t2 ts2, rest2)
end

/-- Modelled from the spec: the tree utility interface, returning the
ordered leaves together with the rebuild function of the captured
skeleton. -/
def PyTree.flattenPair {V : Type} (t : PyTree V) :
    List V × (List V → Option (PyTree V × List V)) :=
  (PyTree.flatten t, PyTree.rebuild t)

mutual
/-- Rebuilding from the flattened leaves followed by any remainder returns
the original tree and exactly that remainder. -/
theorem PyTree.rebuild_flatten {V : Type} (t : PyTree V) (rest : List V) :
    PyTree.rebuild t (PyTree.flatten t ++ rest) = some (t, rest) := by
  cases t with
  | leaf v => simp [PyTree.flatten, PyTree.rebuild]
  | node ts =>
    simp [PyTree.flatten, PyTree.rebuild, PyTreeList.rebuildList_flattenList ts rest]
/-- Rebuilding a subtree sequence from its flattened leaves followed by any
remainder returns the original sequence and exactly that remainder. -/
theorem PyTreeList.rebuildList_flattenList {V : Type} (ts : PyTreeList V) (rest : List V) :
    PyTreeList.rebuildList ts (PyTreeList.flattenList ts ++ rest) = some (ts, rest) := by
  cases ts with
  | nil => simp [PyTreeList.flattenList, PyTreeList.rebuildList]
  | cons t l =>
    simp [PyTreeList.flattenList, PyTreeList.rebuildList, List.append_assoc,
      PyTree.rebuild_flatten t (PyTreeList.flattenList l ++ rest),
      PyTreeList.rebuildList_flattenList l rest]
end

/-- C7: flattening any nested structure into its ordered leaves and
applying the returned rebuild function to exactly those leaves reproduces
the original structure with no leaves left over: flatten and rebuild are
strict inverses, preserving nesting, values and leaf order. -/
theorem flatten_rebuild_roundtrip :
    ∀ (V : Type) (t : PyTree V),
      (PyTree.flattenPair t).2 (PyTree.flattenPair t).1 = some (t, []) := by
  intro V t
  have h := PyTree.rebuild_flatten t []
  simpa [PyTree.flattenPair] using h

/-- Modelled from the spec: the tensors captured at forward time for one
backward invocation: the inner optimum, the meta parameters, and the
auxiliary outputs. -/
structure Captured where
  phiStarV : Vec
  thetaV : Vec
  auxV : Vec

/-- Modelled from the spec: one operator application during the backward,
written as a store-passing computation over the captured tensors; it reads
the condition coefficients and writes nothing. -/
def applyOperatorAt (f : LinearCondition) (c : Captured) (v : Vec) : Vec × Captured :=
  (smul f.a v, c)

/-- Modelled from the spec: one evaluation of the optimality condition at
the captured point: store-passing and read-only. -/
def evalOptimalityAt (f : LinearCondition) (c : Captured) : Vec × Captured :=
  ([f.a * c.phiStarV.headD 0 + f.c * c.thetaV.headD 0 + f.d], c)

/-- Modelled from the spec: the linear solve of the backward, running the
chosen solver over the operator whose applications read the capture
store. -/
def solveAt (slv : LinOp → Vec → Vec) (f : LinearCondition) (c : Captured) (b : Vec) :
    Vec × Captured :=
  (slv ⟨fun v => (applyOperatorAt f c v).1, fun v => (applyOperatorAt f c v).1⟩ b, c)

/-- Modelled from the spec: the full backward pass as a store-passing
pipeline: evaluate the condition, run the linear solve, then tap the
gradient with respect to θ, threading the capture store through every
stage. -/
def backwardAt (slv : LinOp → Vec → Vec) (f : LinearCondition) (c : Captured) (g : ℚ) :
    ℚ × Captured :=
  (-(f.c * (solveAt slv f (evalOptimalityAt f c).2 [g]).1.headD 0),
   (solveAt slv f (evalOptimalityAt f c).2 [g]).2)

/-- C9: the backward pass leaves the captured tensors untouched: every
stage returns the capture store it received, the store after the whole
backward equals the store captured at forward time, and the produced
gradient coincides with the pure backward value, so no effect of the solve
is observable outside it. -/
theorem backward_preserves_captures :
    ∀ (slv : LinOp → Vec → Vec) (f : LinearCondition) (c : Captured) (g : ℚ),
      (backwardAt slv f c g).2 = c ∧
      (evalOptimalityAt f c).2 = c ∧
      (∀ v, (applyOperatorAt f c v).2 = c) ∧
      (∀ b, (solveAt slv f c b).2 = c) ∧
      (backwardAt slv f c g).1 = rootBackward slv f g := by
  intro slv f c g
  exact ⟨rfl, rfl, fun v => rfl, fun b => rfl, rfl⟩

/-- Provenance of a tensor or module attribute of a module instance:
received as a constructor input, or created inside the initializer. -/
inductive Provenance where
  | fromInput
  | createdInInit
  deriving DecidableEq

/-- Registration state of an attribute: automatic classification, or an
explicit register_parameter or register_meta_parameter call. -/
inductive Registration where
  | auto
  | asParameter
  | asMetaParameter
  deriving DecidableEq

/-- An attribute of a module instance: its name, where its value came
from, and how it was registered. -/
structure ModuleAttr where
  attrName : String
  prov : Provenance
  reg : Registration
  deriving DecidableEq

/-- Modelled from the spec and the notebook markdown: the classification
rule of ImplicitMetaGradientModule.  An explicit registration wins;
otherwise a tensor or module received as a constructor input is a meta
parameter, and one created inside the initializer is an inner parameter. -/
def isMetaAttr (a : ModuleAttr) : Bool :=
  match a.reg with
  | .asMetaParameter => true
  | .asParameter => false
  | .auto =>
    match a.prov with
    | .fromInput => true
    | .createdInInit => false

/-- The meta-parameter collection of a module instance. -/
def meta_parameters (attrs : List ModuleAttr) : List ModuleAttr :=
  attrs.filter (fun a => isMetaAttr a)

/-- The inner-parameter collection of a module instance. -/
def inner_parameters (attrs : List ModuleAttr) : List ModuleAttr :=
  attrs.filter (fun a => !(isMetaAttr a))

/-- The meta network of the notebook InnerNet, received as an input. -/
def metaNetAttr : ModuleAttr := ⟨"meta_net", .fromInput, .auto⟩

/-- The cloned network of the notebook InnerNet, created in the
initializer. -/
def netAttr : ModuleAttr := ⟨"net", .createdInInit, .auto⟩

/-- The attribute list of the notebook InnerNet initializer. -/
def innerNetAttrs : List ModuleAttr := [metaNetAttr, netAttr]

/-- C10: by default an attribute received as a constructor input is
classified as a meta parameter and an attribute created inside the
initializer as an inner parameter, while an explicit register call
overrides the default either way; no attribute lands in both collections. -/
theorem module_default_classification :
    ∀ (attrs : List ModuleAttr) (a : ModuleAttr), a ∈ attrs →
      ((a.reg = .auto → a.prov = .fromInput → a ∈ meta_parameters attrs) ∧
       (a.reg = .auto → a.prov = .createdInInit → a ∈ inner_parameters attrs) ∧
       (a.reg = .asMetaParameter → a ∈ meta_parameters attrs) ∧
       (a.reg = .asParameter → a ∈ inner_parameters attrs) ∧
       (a ∈ meta_parameters attrs → a ∉ inner_parameters attrs)) := by
  intro attrs a ha
  refine ⟨?_, ?_, ?_, ?_, ?_⟩
  · intro h1 h2
    unfold meta_parameters
    rw [List.mem_filter]
    exact ⟨ha, by simp [isMetaAttr, h1, h2]⟩
  · intro h1 h2
    unfold inner_parameters
    rw [List.mem_filter]
    exact ⟨ha, by simp [isMetaAttr, h1, h2]⟩
  · intro h1
    unfold meta_parameters
    rw [List.mem_filter]
    exact ⟨ha, by simp [isMetaAttr, h1]⟩
  · intro h1
    unfold inner_parameters
    rw [List.mem_filter]
    exact ⟨ha, by simp [isMetaAttr, h1]⟩
  · intro hm hi
    unfold meta_parameters at hm
    unfold inner_parameters at hi
    rw [List.mem_filter] at hm hi
    have h1 : isMetaAttr a = true := hm.2
    have h2 : (!(isMetaAttr a)) = true := hi.2
    rw [h1] at h2
    simp at h2

/-- Witness for C10 at the notebook InnerNet attributes: the input-provided
meta network is a meta parameter and the initializer-created clone is an
inner parameter. -/
theorem module_default_classification_witness :
    metaNetAttr ∈ innerNetAttrs ∧
      metaNetAttr ∈ meta_parameters innerNetAttrs ∧
      netAttr ∈ inner_parameters innerNetAttrs :=
  ⟨by simp [innerNetAttrs],
   (module_default_classification innerNetAttrs metaNetAttr
      (by simp [innerNetAttrs])).1 rfl rfl,
   ((module_default_classification innerNetAttrs netAttr
      (by simp [innerNetAttrs])).2.1) rfl rfl⟩

end TorchOpt
